import Mathlib

/-!
Verification of the layered configuration loader of `dotenv-enhanced`
(`src/mod.ts`).  The process environment is modelled as a function
`String → Option String`, the module-level `SET_VARIABLES` tracking set as an
insertion-ordered duplicate-free `List String` (JavaScript `Set` iterates in
insertion order), the file system and the external `@std/dotenv` parser as
explicit parameters, and thrown exceptions as `Except` errors.  Console output
of the layered loaders is modelled as a list of emitted lines carried in the
state.
-/

namespace DotenvEnhanced

/-- The process environment table (`Deno.env`): `none` means the variable is
unset, `some v` that it has value `v` (possibly the empty string). -/
abbrev Env := String → Option String

/-- A parsed configuration mapping, as the entry list of a JavaScript record
(`Object.entries` order; a record has pairwise distinct keys). -/
abbrev Entries := List (String × String)

/-- Result of reading a file path (`Deno.readTextFileSync` and its async
twin): the file is missing, has text content, or reading fails. -/
inductive FsResult where
  | notFound
  | content (text : String)
  | readErr (e : String)

/-- The file system, mapping a path to the outcome of reading it. -/
abbrev FS := String → FsResult

/-- The external `@std/dotenv` `parse` collaborator: raw text to a mapping,
or a parse failure. -/
abbrev Parse := String → Except String Entries

/-- An error escaping `parseFileSync` / `parseFile`: a non-NotFound I/O
failure or a parse failure, kept distinct so propagation can be traced. -/
inductive LoadErr where
  | ioErr (e : String)
  | parseErr (e : String)
  deriving DecidableEq

/-- Options for `load` and `loadSync` (src/mod.ts lines 17–33).  The
`envPath` field is tri-state: `none` means the field was never supplied (the
default `".env"` applies), `some none` models an explicit `null`, and
`some (some p)` an explicit path string. -/
structure LoadOptions where
  envPath : Option (Option String) := none
  exportEnv : Bool := false

/-- JavaScript falsiness of an environment lookup: `undefined` or the empty
string (`!Deno.env.get(key)`). -/
def falsy (v : Option String) : Prop := v = none ∨ v = some ""

instance instDecidableFalsy (v : Option String) : Decidable (falsy v) := by
  unfold falsy
  exact inferInstance

/-- `Deno.env.set`: point update of the environment table. -/
def envSet (env : Env) (k v : String) : Env :=
  fun q => if q = k then some v else env q

/-- `parseFileSync` (src/mod.ts lines 35–44): read the whole file and parse
it; a missing file yields the empty mapping, any other failure propagates. -/
def parseFileSync (parse : Parse) (fs : FS) (filepath : String) :
    Except LoadErr Entries :=
  match fs filepath with
  | .notFound => .ok []
  | .readErr e => .error (.ioErr e)
  | .content text =>
    match parse text with
    | .ok conf => .ok conf
    | .error e => .error (.parseErr e)

/-- `parseFile` (src/mod.ts lines 46–55): the asynchronous twin of
`parseFileSync`, whose body is line-for-line the same up to `await`. -/
def parseFile (parse : Parse) (fs : FS) (filepath : String) :
    Except LoadErr Entries :=
  match fs filepath with
  | .notFound => .ok []
  | .readErr e => .error (.ioErr e)
  | .content text =>
    match parse text with
    | .ok conf => .ok conf
    | .error e => .error (.parseErr e)

/-- The `const conf = envPath ? parseFileSync(envPath) : {}` step of
`loadSync` (src/mod.ts lines 73–77): default the path to `".env"` when the
field was never supplied, and skip reading when the resolved path is falsy
(explicit `null` or the empty string). -/
def resolveConf (parse : Parse) (fs : FS) (options : LoadOptions) :
    Except LoadErr Entries :=
  match options.envPath.getD (some ".env") with
  | some p => if p = "" then .ok [] else parseFileSync parse fs p
  | none => .ok []

/-- The twin of `resolveConf` inside the asynchronous `load`
(src/mod.ts lines 107–111). -/
def resolveConfAsync (parse : Parse) (fs : FS) (options : LoadOptions) :
    Except LoadErr Entries :=
  match options.envPath.getD (some ".env") with
  | some p => if p = "" then .ok [] else parseFile parse fs p
  | none => .ok []

/-- The export loop of `loadSync` / `load` (src/mod.ts lines 79–84 and
113–118): for each entry, write it only when the key is not already present
in the environment (`Deno.env.get(key) !== undefined` skips). -/
def exportConf (conf : Entries) (env : Env) : Env :=
  conf.foldl (fun e kv => if e kv.1 = none then envSet e kv.1 kv.2 else e) env

/-- `loadSync` (src/mod.ts lines 70–87): resolve the path, load the mapping,
optionally export it under the first-writer-wins rule, and return the mapping
together with the resulting environment. -/
def loadSync (parse : Parse) (fs : FS) (options : LoadOptions) (env : Env) :
    Except LoadErr (Entries × Env) :=
  match resolveConf parse fs options with
  | .error e => .error e
  | .ok conf =>
    .ok (conf, if options.exportEnv then exportConf conf env else env)

/-- `load` (src/mod.ts lines 104–121): the asynchronous twin of `loadSync`,
whose body is line-for-line the same up to `await`. -/
def load (parse : Parse) (fs : FS) (options : LoadOptions) (env : Env) :
    Except LoadErr (Entries × Env) :=
  match resolveConfAsync parse fs options with
  | .error e => .error e
  | .ok conf =>
    .ok (conf, if options.exportEnv then exportConf conf env else env)

/-- `SET_VARIABLES.add` (JavaScript `Set.add`): append the key if it is not
already tracked, preserving insertion order. -/
def addTrack (t : List String) (k : String) : List String :=
  if k ∈ t then t else t ++ [k]

/-- The `for (const key of Object.keys(baseConfig)) SET_VARIABLES.add(key)`
loop (src/mod.ts lines 203–205 and 330–332): every base key is tracked
unconditionally. -/
def trackKeys (conf : Entries) (t : List String) : List String :=
  conf.foldl (fun t kv => addTrack t kv.1) t

/-- The overlay merge loop (src/mod.ts lines 211–217 and 338–344): write the
overlay value, overwriting, exactly when the key is already tracked or the
current environment value is falsy; after a write the key is tracked. -/
def overlayMerge (conf : Entries) (env : Env) (t : List String) :
    Env × List String :=
  conf.foldl
    (fun st kv =>
      if kv.1 ∈ st.2 ∨ falsy (st.1 kv.1) then
        (envSet st.1 kv.1 kv.2, addTrack st.2 kv.1)
      else st)
    (env, t)

/-- The observability line (src/mod.ts lines 220–222 and 347–349). -/
def hydratedLine (t : List String) : String :=
  "Hydrated environment variables: " ++ String.intercalate ", " t

/-- Process-wide state touched by the layered loaders: the environment, the
`SET_VARIABLES` tracking set, and the emitted console lines. -/
structure SysState where
  env : Env
  tracked : List String
  log : List String

/-- The overlay phase of `loadEnvSync` (src/mod.ts lines 207–218), applied to
the `NODE_ENV` value that was read at the top of the call (line 199, before
the base load): when that value is truthy, load `".env." ++ nodeEnv` without
export and merge it with `overlayMerge`. -/
def overlayStep (parse : Parse) (fs : FS) (nodeEnv : Option String)
    (env1 : Env) (tracked1 : List String) :
    Except LoadErr (Env × List String) :=
  match nodeEnv with
  | some ne =>
    if ne = "" then .ok (env1, tracked1)
    else
      match loadSync parse fs { envPath := some (some (".env." ++ ne)) } env1 with
      | .error e => .error e
      | .ok (envConfig, env2) => .ok (overlayMerge envConfig env2 tracked1)
  | none => .ok (env1, tracked1)

/-- `loadEnvSync` (src/mod.ts lines 198–223): read `NODE_ENV` first (from the
initial environment), load and export the base `.env`, track every base key,
run the overlay phase on the initially-read `NODE_ENV`, and emit the hydrate
line listing the full tracking set. -/
def loadEnvSync (parse : Parse) (fs : FS) (s : SysState) :
    Except LoadErr SysState :=
  match loadSync parse fs { exportEnv := true } s.env with
  | .error e => .error e
  | .ok (baseConfig, env1) =>
    match overlayStep parse fs (s.env "NODE_ENV") env1
        (trackKeys baseConfig s.tracked) with
    | .error e => .error e
    | .ok (env2, tracked2) =>
      .ok ⟨env2, tracked2, s.log ++ [hydratedLine tracked2]⟩

/-- The twin of `overlayStep` inside the asynchronous `mod`
(src/mod.ts lines 334–345), calling `load` instead of `loadSync`. -/
def overlayStepAsync (parse : Parse) (fs : FS) (nodeEnv : Option String)
    (env1 : Env) (tracked1 : List String) :
    Except LoadErr (Env × List String) :=
  match nodeEnv with
  | some ne =>
    if ne = "" then .ok (env1, tracked1)
    else
      match load parse fs { envPath := some (some (".env." ++ ne)) } env1 with
      | .error e => .error e
      | .ok (envConfig, env2) => .ok (overlayMerge envConfig env2 tracked1)
  | none => .ok (env1, tracked1)

/-- `mod` (src/mod.ts lines 325–350): the asynchronous twin of `loadEnvSync`,
whose body is line-for-line the same up to `await`. -/
def mod (parse : Parse) (fs : FS) (s : SysState) :
    Except LoadErr SysState :=
  match load parse fs { exportEnv := true } s.env with
  | .error e => .error e
  | .ok (baseConfig, env1) =>
    match overlayStepAsync parse fs (s.env "NODE_ENV") env1
        (trackKeys baseConfig s.tracked) with
    | .error e => .error e
    | .ok (env2, tracked2) =>
      .ok ⟨env2, tracked2, s.log ++ [hydratedLine tracked2]⟩

/-- A parser behaves like the external record parser: any mapping it produces
has pairwise distinct keys (it is `Object.entries` of a record). -/
def RecordParse (parse : Parse) : Prop :=
  ∀ t c, parse t = .ok c → (c.map Prod.fst).Nodup

/-! ### Concrete fixtures used to evaluate the development on closed inputs -/

/-- The empty process environment. -/
def env0 : Env := fun _ => none

/-- Extract the state of a successful layered load, with a fallback. -/
def runOk (r : Except LoadErr SysState) (dflt : SysState) : SysState :=
  match r with
  | .ok s => s
  | .error _ => dflt

/-- Fixture environment: indicator preset to `dev`, two externally-set keys,
one key set to the empty string. -/
def wEnv : Env := fun k =>
  if k = "NODE_ENV" then some "dev"
  else if k = "EXT" then some "keep"
  else if k = "EXT2" then some "keep2"
  else if k = "EMP" then some ""
  else none

/-- Fixture parser mapping three known texts to small records. -/
def wParse : Parse := fun text =>
  if text = "baseTxt" then .ok [("A", "1"), ("K", "b"), ("EXT", "clobber")]
  else if text = "ovlTxt" then .ok [("A", "2"), ("EXT2", "x"), ("NEW", "n"), ("EMP", "e")]
  else if text = "altTxt" then .ok [("EMP", "zzz")]
  else .ok []

/-- Fixture file system: a base file, a `dev` overlay, and one extra file. -/
def wFs : FS := fun p =>
  if p = ".env" then .content "baseTxt"
  else if p = ".env.dev" then .content "ovlTxt"
  else if p = "alt.env" then .content "altTxt"
  else .notFound

/-- Variant of `wFs` agreeing on `.env` and `.env.dev` but differing on every
other path. -/
def wFs2 : FS := fun p =>
  if p = ".env" then .content "baseTxt"
  else if p = ".env.dev" then .content "ovlTxt"
  else .readErr "EACCES"

/-- Fixture initial state over `wEnv`. -/
def wSt : SysState := ⟨wEnv, [], []⟩

/-- State after one layered load on the `w` fixture. -/
def wStA : SysState := runOk (loadEnvSync wParse wFs wSt) wSt

/-- State after one asynchronous layered load on the `w` fixture. -/
def wStM : SysState := runOk (mod wParse wFs wSt) wSt

/-- State after a second layered load on the `w` fixture. -/
def wStB : SysState := runOk (loadEnvSync wParse wFs wStA) wSt

/-- Fixture parser where the base file defines the environment indicator. -/
def xParse : Parse := fun text =>
  if text = "bTxt" then .ok [("NODE_ENV", "dev")]
  else if text = "oTxt" then .ok [("FOO", "1")]
  else .ok []

/-- Fixture file system with base `.env` defining `NODE_ENV=dev` and an
overlay `.env.dev` defining `FOO=1`. -/
def xFs : FS := fun p =>
  if p = ".env" then .content "bTxt"
  else if p = ".env.dev" then .content "oTxt"
  else .notFound

/-- Variant of `xFs` with no overlay file at all. -/
def xFs2 : FS := fun p =>
  if p = ".env" then .content "bTxt"
  else .notFound

/-- Initial state over the empty environment (`NODE_ENV` unset). -/
def xSt : SysState := ⟨env0, [], []⟩

/-- State after one layered load on the `x` fixture. -/
def xSt1 : SysState := runOk (loadEnvSync xParse xFs xSt) xSt

/-- Fixture parser for the error-propagation cases: one good text, everything
else fails to parse. -/
def eParse : Parse := fun text =>
  if text = "goodTxt" then .ok [("A", "1")] else .error "badline"

/-- Fixture file system: malformed base file, one unreadable path. -/
def eFs : FS := fun p =>
  if p = ".env" then .content "malTxt"
  else if p = "locked" then .readErr "EACCES"
  else .notFound

/-- Fixture file system: good base file, unreadable `dev` overlay. -/
def e2Fs : FS := fun p =>
  if p = ".env" then .content "goodTxt"
  else if p = ".env.dev" then .readErr "EACCES"
  else .notFound

/-- Fixture environment with only the indicator set. -/
def eEnv : Env := fun k => if k = "NODE_ENV" then some "dev" else none

/-- Fixture initial state over `eEnv`. -/
def eSt : SysState := ⟨eEnv, [], []⟩

/-! ### Basic lemmas about the environment table and the tracking set -/

theorem envSet_same (env : Env) (k v : String) : envSet env k v k = some v := by
  simp [envSet]

theorem envSet_other (env : Env) (k v q : String) (h : q ≠ k) :
    envSet env k v q = env q := by
  simp [envSet, h]

theorem not_falsy_some {v : String} (hv : v ≠ "") : ¬ falsy (some v) := by
  simp [falsy, hv]

theorem not_falsy_ne_none {o : Option String} (h : ¬ falsy o) : o ≠ none := by
  intro h0
  exact h (Or.inl h0)

theorem mem_addTrack (t : List String) (k a : String) :
    a ∈ addTrack t k ↔ a ∈ t ∨ a = k := by
  unfold addTrack
  split
  · next hk =>
    constructor
    · exact fun h => Or.inl h
    · rintro (h | rfl)
      · exact h
      · exact hk
  · simp [List.mem_append]

theorem self_mem_addTrack (t : List String) (k : String) : k ∈ addTrack t k :=
  (mem_addTrack t k k).2 (Or.inr rfl)

theorem addTrack_of_mem {t : List String} {k : String} (h : k ∈ t) :
    addTrack t k = t := if_pos h

theorem addTrack_sublist (t : List String) (k : String) :
    List.Sublist t (addTrack t k) := by
  unfold addTrack
  split
  · exact List.Sublist.refl t
  · exact List.sublist_append_left t [k]

theorem trackKeys_cons (kv : String × String) (rest : Entries)
    (t : List String) :
    trackKeys (kv :: rest) t = trackKeys rest (addTrack t kv.1) := rfl

theorem mem_trackKeys (conf : Entries) :
    ∀ (t : List String) (a : String),
      a ∈ trackKeys conf t ↔ a ∈ t ∨ a ∈ conf.map Prod.fst := by
  induction conf with
  | nil => intro t a; simp [trackKeys]
  | cons kv rest ih =>
    intro t a
    rw [trackKeys_cons, ih, mem_addTrack]
    simp only [List.map_cons, List.mem_cons]
    tauto

theorem trackKeys_sublist (conf : Entries) :
    ∀ t : List String, List.Sublist t (trackKeys conf t) := by
  induction conf with
  | nil => intro t; exact List.Sublist.refl t
  | cons kv rest ih =>
    intro t
    rw [trackKeys_cons]
    exact (addTrack_sublist t kv.1).trans (ih (addTrack t kv.1))

theorem trackKeys_of_subset (conf : Entries) :
    ∀ t : List String, (∀ a ∈ conf.map Prod.fst, a ∈ t) →
      trackKeys conf t = t := by
  induction conf with
  | nil => intro t _; rfl
  | cons kv rest ih =>
    intro t h
    rw [trackKeys_cons, addTrack_of_mem (h kv.1 (by simp))]
    exact ih t (fun a ha => h a (by simp [ha]))

/-! ### Lemmas about the first-writer-wins export loop -/

theorem exportConf_cons (kv : String × String) (rest : Entries) (env : Env) :
    exportConf (kv :: rest) env =
      exportConf rest (if env kv.1 = none then envSet env kv.1 kv.2 else env) := rfl

theorem exportConf_of_some (conf : Entries) :
    ∀ (env : Env) (k w : String), env k = some w →
      exportConf conf env k = some w := by
  induction conf with
  | nil => intro env k w h; exact h
  | cons kv rest ih =>
    intro env k w h
    rw [exportConf_cons]
    split
    · next h0 =>
      apply ih
      by_cases hq : k = kv.1
      · rw [hq, h0] at h
        exact absurd h (by simp)
      · rw [envSet_other env kv.1 kv.2 k hq]
        exact h
    · exact ih env k w h

theorem exportConf_not_mem (conf : Entries) :
    ∀ (env : Env) (k : String), k ∉ conf.map Prod.fst →
      exportConf conf env k = env k := by
  induction conf with
  | nil => intro env k _; rfl
  | cons kv rest ih =>
    intro env k h
    have hk : k ≠ kv.1 := by
      intro hq
      exact h (by simp [hq])
    have hr : k ∉ rest.map Prod.fst := by
      intro hq
      exact h (by simp [hq])
    rw [exportConf_cons]
    split
    · rw [ih _ k hr, envSet_other env kv.1 kv.2 k hk]
    · exact ih env k hr

theorem exportConf_writes (conf : Entries) :
    ∀ (env : Env) (k v : String), (k, v) ∈ conf →
      (conf.map Prod.fst).Nodup → env k = none →
      exportConf conf env k = some v := by
  induction conf with
  | nil => intro env k v h _ _; simp at h
  | cons kv rest ih =>
    obtain ⟨k0, v0⟩ := kv
    intro env k v hmem hnd h0
    have hnd1 : k0 ∉ rest.map Prod.fst := by
      simp only [List.map_cons, List.nodup_cons] at hnd
      exact hnd.1
    have hnd2 : (rest.map Prod.fst).Nodup := by
      simp only [List.map_cons, List.nodup_cons] at hnd
      exact hnd.2
    rw [exportConf_cons]
    rcases List.mem_cons.1 hmem with heq | hrest
    · have hk : k = k0 := congrArg Prod.fst heq
      have hv : v = v0 := congrArg Prod.snd heq
      subst hk
      subst hv
      rw [if_pos h0]
      rw [exportConf_not_mem rest _ k hnd1, envSet_same]
    · have hk : k ≠ k0 := by
        intro hq
        apply hnd1
        rw [← hq]
        exact List.mem_map.2 ⟨(k, v), hrest, rfl⟩
      split
      · exact ih _ k v hrest hnd2 (by rw [envSet_other env k0 v0 k hk]; exact h0)
      · exact ih env k v hrest hnd2 h0

/-! ### Lemmas about the overlay merge loop -/

theorem overlayMerge_cons (kv : String × String) (rest : Entries) (env : Env)
    (t : List String) :
    overlayMerge (kv :: rest) env t =
      if kv.1 ∈ t ∨ falsy (env kv.1) then
        overlayMerge rest (envSet env kv.1 kv.2) (addTrack t kv.1)
      else overlayMerge rest env t := by
  by_cases h : kv.1 ∈ t ∨ falsy (env kv.1)
  · simp only [overlayMerge, List.foldl_cons, if_pos h]
  · simp only [overlayMerge, List.foldl_cons, if_neg h]

theorem overlayMerge_not_mem (conf : Entries) :
    ∀ (env : Env) (t : List String) (a : String), a ∉ conf.map Prod.fst →
      (overlayMerge conf env t).1 a = env a ∧
        ((a ∈ (overlayMerge conf env t).2) ↔ a ∈ t) := by
  induction conf with
  | nil => intro env t a _; exact ⟨rfl, Iff.rfl⟩
  | cons kv rest ih =>
    intro env t a h
    have ha1 : a ≠ kv.1 := fun hq => h (by simp [hq])
    have har : a ∉ rest.map Prod.fst := fun hq => h (by simp [hq])
    rw [overlayMerge_cons]
    split
    · obtain ⟨h1, h2⟩ := ih (envSet env kv.1 kv.2) (addTrack t kv.1) a har
      refine ⟨?_, ?_⟩
      · rw [h1, envSet_other env kv.1 kv.2 a ha1]
      · rw [h2, mem_addTrack]
        constructor
        · rintro (hh | rfl)
          · exact hh
          · exact absurd rfl ha1
        · exact Or.inl
    · exact ih env t a har

theorem overlayMerge_tracked_sublist (conf : Entries) :
    ∀ (env : Env) (t : List String),
      List.Sublist t (overlayMerge conf env t).2 := by
  induction conf with
  | nil => intro env t; exact List.Sublist.refl t
  | cons kv rest ih =>
    intro env t
    rw [overlayMerge_cons]
    split
    · exact (addTrack_sublist t kv.1).trans (ih _ _)
    · exact ih env t

theorem mem_overlayMerge_tracked (conf : Entries) :
    ∀ (env : Env) (t : List String) (a : String),
      a ∈ (overlayMerge conf env t).2 → a ∈ t ∨ a ∈ conf.map Prod.fst := by
  induction conf with
  | nil => intro env t a h; exact Or.inl h
  | cons kv rest ih =>
    intro env t a h
    rw [overlayMerge_cons] at h
    split at h
    · rcases ih _ _ a h with h1 | h1
      · rcases (mem_addTrack t kv.1 a).1 h1 with h2 | h2
        · exact Or.inl h2
        · exact Or.inr (by simp [h2])
      · exact Or.inr (by simp [h1])
    · rcases ih _ _ a h with h1 | h1
      · exact Or.inl h1
      · exact Or.inr (by simp [h1])

theorem overlayMerge_key (conf : Entries) :
    ∀ (env : Env) (t : List String) (k v : String),
      (k, v) ∈ conf → (conf.map Prod.fst).Nodup →
      ((k ∈ t ∨ falsy (env k)) →
        (overlayMerge conf env t).1 k = some v ∧
          k ∈ (overlayMerge conf env t).2)
      ∧ (¬(k ∈ t ∨ falsy (env k)) →
        (overlayMerge conf env t).1 k = env k ∧
          ((k ∈ (overlayMerge conf env t).2) ↔ k ∈ t)) := by
  induction conf with
  | nil => intro env t k v h _; simp at h
  | cons kv rest ih =>
    obtain ⟨k0, v0⟩ := kv
    intro env t k v hmem hnd
    have hnd1 : k0 ∉ rest.map Prod.fst := by
      simp only [List.map_cons, List.nodup_cons] at hnd
      exact hnd.1
    have hnd2 : (rest.map Prod.fst).Nodup := by
      simp only [List.map_cons, List.nodup_cons] at hnd
      exact hnd.2
    rcases List.mem_cons.1 hmem with heq | hrest
    · have hk : k = k0 := congrArg Prod.fst heq
      have hv : v = v0 := congrArg Prod.snd heq
      subst hk
      subst hv
      rw [overlayMerge_cons]
      constructor
      · intro hc
        rw [if_pos hc]
        obtain ⟨h1, h2⟩ :=
          overlayMerge_not_mem rest (envSet env k v) (addTrack t k) k hnd1
        exact ⟨by rw [h1, envSet_same], h2.mpr (self_mem_addTrack t k)⟩
      · intro hc
        rw [if_neg hc]
        exact overlayMerge_not_mem rest env t k hnd1
    · have hk : k ≠ k0 := by
        intro hq
        apply hnd1
        rw [← hq]
        exact List.mem_map.2 ⟨(k, v), hrest, rfl⟩
      rw [overlayMerge_cons]
      by_cases hc0 : k0 ∈ t ∨ falsy (env k0)
      · rw [if_pos hc0]
        have henv : envSet env k0 v0 k = env k := envSet_other env k0 v0 k hk
        have hmemt : (k ∈ addTrack t k0) ↔ k ∈ t := by
          rw [mem_addTrack]
          constructor
          · rintro (hh | hh)
            · exact hh
            · exact absurd hh hk
          · exact Or.inl
        have hcond : (k ∈ addTrack t k0 ∨ falsy (envSet env k0 v0 k)) ↔
            (k ∈ t ∨ falsy (env k)) := by
          rw [henv, hmemt]
        obtain ⟨ihpos, ihneg⟩ := ih (envSet env k0 v0) (addTrack t k0) k v hrest hnd2
        constructor
        · intro hc
          exact ihpos (hcond.mpr hc)
        · intro hc
          obtain ⟨h1, h2⟩ := ihneg (fun hx => hc (hcond.mp hx))
          refine ⟨?_, ?_⟩
          · rw [h1, henv]
          · rw [h2, hmemt]
      · rw [if_neg hc0]
        exact ih env t k v hrest hnd2

theorem overlayMerge_tracked_stable (conf : Entries) :
    ∀ (env : Env) (t : List String),
      (∀ kv ∈ conf, kv.1 ∈ t ∨ ¬ falsy (env kv.1)) →
      (overlayMerge conf env t).2 = t := by
  induction conf with
  | nil => intro env t _; rfl
  | cons kv rest ih =>
    intro env t h
    rw [overlayMerge_cons]
    by_cases hm : kv.1 ∈ t
    · rw [if_pos (Or.inl hm), addTrack_of_mem hm]
      apply ih
      intro kv2 h2
      rcases h kv2 (List.mem_cons_of_mem kv h2) with hh | hh
      · exact Or.inl hh
      · by_cases hq : kv2.1 = kv.1
        · exact Or.inl (by rw [hq]; exact hm)
        · exact Or.inr (by rw [envSet_other env kv.1 kv.2 kv2.1 hq]; exact hh)
    · have hnf : ¬ falsy (env kv.1) := by
        rcases h kv (List.mem_cons_self kv rest) with hh | hh
        · exact absurd hh hm
        · exact hh
      rw [if_neg (fun hcc => hcc.elim hm hnf)]
      apply ih
      intro kv2 h2
      exact h kv2 (List.mem_cons_of_mem kv h2)

/-! ### Structural lemmas about `loadSync` and the layered loaders -/

theorem dotPath_ne_empty (ne : String) : ".env." ++ ne ≠ "" := by
  intro h
  have h2 := congrArg String.length h
  rw [String.length_append] at h2
  have h3 : (".env." : String).length = 5 := rfl
  have h4 : ("" : String).length = 0 := rfl
  rw [h3, h4] at h2
  omega

theorem resolveConf_default (parse : Parse) (fs : FS) (b : Bool) :
    resolveConf parse fs ⟨none, b⟩ = parseFileSync parse fs ".env" := by
  unfold resolveConf
  simp

theorem resolveConf_null (parse : Parse) (fs : FS) (b : Bool) :
    resolveConf parse fs ⟨some none, b⟩ = .ok [] := rfl

theorem resolveConf_emptyPath (parse : Parse) (fs : FS) (b : Bool) :
    resolveConf parse fs ⟨some (some ""), b⟩ = .ok [] := by
  unfold resolveConf
  simp

theorem resolveConf_somePath (parse : Parse) (fs : FS) (b : Bool)
    {p : String} (hp : p ≠ "") :
    resolveConf parse fs ⟨some (some p), b⟩ = parseFileSync parse fs p := by
  unfold resolveConf
  simp [hp]

theorem loadSync_ok_intro (parse : Parse) (fs : FS) (options : LoadOptions)
    (env : Env) {conf : Entries}
    (h : resolveConf parse fs options = .ok conf) :
    loadSync parse fs options env =
      .ok (conf, if options.exportEnv then exportConf conf env else env) := by
  simp only [loadSync, h]

theorem loadSync_err_intro (parse : Parse) (fs : FS) (options : LoadOptions)
    (env : Env) {e : LoadErr}
    (h : resolveConf parse fs options = .error e) :
    loadSync parse fs options env = .error e := by
  simp only [loadSync, h]

theorem loadSync_ok_elim (parse : Parse) (fs : FS) (options : LoadOptions)
    (env : Env) {conf : Entries} {env2 : Env}
    (h : loadSync parse fs options env = .ok (conf, env2)) :
    resolveConf parse fs options = .ok conf ∧
      env2 = (if options.exportEnv then exportConf conf env else env) := by
  unfold loadSync at h
  split at h
  · exact absurd h (by simp)
  · next c hr =>
    simp only [Except.ok.injEq, Prod.mk.injEq] at h
    obtain ⟨h1, h2⟩ := h
    subst h1
    exact ⟨hr, h2.symm⟩

theorem overlayStep_none (parse : Parse) (fs : FS) (env1 : Env)
    (t1 : List String) : overlayStep parse fs none env1 t1 = .ok (env1, t1) := rfl

theorem overlayStep_emptyInd (parse : Parse) (fs : FS) (env1 : Env)
    (t1 : List String) :
    overlayStep parse fs (some "") env1 t1 = .ok (env1, t1) := rfl

theorem overlayStep_falsy (parse : Parse) (fs : FS) {nodeEnv : Option String}
    (env1 : Env) (t1 : List String) (h : falsy nodeEnv) :
    overlayStep parse fs nodeEnv env1 t1 = .ok (env1, t1) := by
  rcases h with h | h
  · rw [h]
    exact overlayStep_none parse fs env1 t1
  · rw [h]
    exact overlayStep_emptyInd parse fs env1 t1

theorem overlayStep_some (parse : Parse) (fs : FS) {ne : String} (env1 : Env)
    (t1 : List String) (hne : ne ≠ "") {E : Entries}
    (hp : parseFileSync parse fs (".env." ++ ne) = .ok E) :
    overlayStep parse fs (some ne) env1 t1 = .ok (overlayMerge E env1 t1) := by
  have hr : resolveConf parse fs ⟨some (some (".env." ++ ne)), false⟩ = .ok E := by
    rw [resolveConf_somePath parse fs false (dotPath_ne_empty ne)]
    exact hp
  simp only [overlayStep, if_neg hne, loadSync_ok_intro parse fs _ env1 hr]
  rfl

theorem overlayStep_some_err (parse : Parse) (fs : FS) {ne : String}
    (env1 : Env) (t1 : List String) (hne : ne ≠ "") {e : LoadErr}
    (hp : parseFileSync parse fs (".env." ++ ne) = .error e) :
    overlayStep parse fs (some ne) env1 t1 = .error e := by
  have hr : resolveConf parse fs ⟨some (some (".env." ++ ne)), false⟩ = .error e := by
    rw [resolveConf_somePath parse fs false (dotPath_ne_empty ne)]
    exact hp
  simp only [overlayStep, if_neg hne, loadSync_err_intro parse fs _ env1 hr]

theorem overlayStep_ok_elim (parse : Parse) (fs : FS)
    {nodeEnv : Option String} {env1 : Env} {t1 : List String} {env2 : Env}
    {t2 : List String}
    (h : overlayStep parse fs nodeEnv env1 t1 = .ok (env2, t2)) :
    (falsy nodeEnv ∧ env2 = env1 ∧ t2 = t1) ∨
      (∃ ne E, nodeEnv = some ne ∧ ne ≠ "" ∧
        parseFileSync parse fs (".env." ++ ne) = .ok E ∧
        (env2, t2) = overlayMerge E env1 t1) := by
  match hnv : nodeEnv with
  | none =>
    rw [overlayStep_none] at h
    simp only [Except.ok.injEq, Prod.mk.injEq] at h
    exact Or.inl ⟨Or.inl rfl, h.1.symm, h.2.symm⟩
  | some ne =>
    by_cases hne : ne = ""
    · subst hne
      rw [overlayStep_emptyInd] at h
      simp only [Except.ok.injEq, Prod.mk.injEq] at h
      exact Or.inl ⟨Or.inr rfl, h.1.symm, h.2.symm⟩
    · cases hp : parseFileSync parse fs (".env." ++ ne) with
      | error e =>
        rw [overlayStep_some_err parse fs env1 t1 hne hp] at h
        exact absurd h (by simp)
      | ok E =>
        rw [overlayStep_some parse fs env1 t1 hne hp] at h
        simp only [Except.ok.injEq] at h
        exact Or.inr ⟨ne, E, rfl, hne, hp, h.symm⟩

theorem loadEnvSync_ok_intro (parse : Parse) (fs : FS) (s : SysState)
    {B : Entries} {env1 env2 : Env} {t2 : List String}
    (hb : loadSync parse fs { exportEnv := true } s.env = .ok (B, env1))
    (ho : overlayStep parse fs (s.env "NODE_ENV") env1
        (trackKeys B s.tracked) = .ok (env2, t2)) :
    loadEnvSync parse fs s = .ok ⟨env2, t2, s.log ++ [hydratedLine t2]⟩ := by
  simp only [loadEnvSync, hb, ho]

theorem loadEnvSync_base_err (parse : Parse) (fs : FS) (s : SysState)
    {e : LoadErr}
    (hb : loadSync parse fs { exportEnv := true } s.env = .error e) :
    loadEnvSync parse fs s = .error e := by
  simp only [loadEnvSync, hb]

theorem loadEnvSync_overlay_err (parse : Parse) (fs : FS) (s : SysState)
    {B : Entries} {env1 : Env} {e : LoadErr}
    (hb : loadSync parse fs { exportEnv := true } s.env = .ok (B, env1))
    (ho : overlayStep parse fs (s.env "NODE_ENV") env1
        (trackKeys B s.tracked) = .error e) :
    loadEnvSync parse fs s = .error e := by
  simp only [loadEnvSync, hb, ho]

theorem loadEnvSync_ok_elim (parse : Parse) (fs : FS) (s : SysState)
    {s2 : SysState} (h : loadEnvSync parse fs s = .ok s2) :
    ∃ B env1 env2 t2,
      loadSync parse fs { exportEnv := true } s.env = .ok (B, env1) ∧
      overlayStep parse fs (s.env "NODE_ENV") env1
        (trackKeys B s.tracked) = .ok (env2, t2) ∧
      s2 = ⟨env2, t2, s.log ++ [hydratedLine t2]⟩ := by
  unfold loadEnvSync at h
  split at h
  · exact absurd h (by simp)
  · next B env1 hb =>
    split at h
    · exact absurd h (by simp)
    · next env2 t2 ho =>
      simp only [Except.ok.injEq] at h
      exact ⟨B, env1, env2, t2, hb, ho, h.symm⟩

theorem parseFileSync_congr (parse : Parse) {fs fs2 : FS} (p : String)
    (h : fs2 p = fs p) :
    parseFileSync parse fs2 p = parseFileSync parse fs p := by
  unfold parseFileSync
  rw [h]

theorem parseFileSync_nodup {parse : Parse} (fs : FS) (p : String)
    {c : Entries} (hrec : RecordParse parse)
    (h : parseFileSync parse fs p = .ok c) : (c.map Prod.fst).Nodup := by
  unfold parseFileSync at h
  split at h
  · simp only [Except.ok.injEq] at h
    rw [← h]
    simp
  · exact absurd h (by simp)
  · split at h
    · next conf hp =>
      simp only [Except.ok.injEq] at h
      rw [← h]
      exact hrec _ _ hp
    · exact absurd h (by simp)

theorem resolveConf_nodup {parse : Parse} (fs : FS) (options : LoadOptions)
    {c : Entries} (hrec : RecordParse parse)
    (h : resolveConf parse fs options = .ok c) : (c.map Prod.fst).Nodup := by
  unfold resolveConf at h
  split at h
  · split at h
    · simp only [Except.ok.injEq] at h
      rw [← h]
      simp
    · exact parseFileSync_nodup fs _ hrec h
  · simp only [Except.ok.injEq] at h
    rw [← h]
    simp

theorem load_eq_loadSync (parse : Parse) (fs : FS) (options : LoadOptions)
    (env : Env) : load parse fs options env = loadSync parse fs options env := rfl

theorem mod_eq_loadEnvSync (parse : Parse) (fs : FS) (s : SysState) :
    mod parse fs s = loadEnvSync parse fs s := rfl

theorem tracked_monotone (parse : Parse) (fs : FS) (s : SysState)
    {s1 : SysState} (h : loadEnvSync parse fs s = .ok s1) :
    List.Sublist s.tracked s1.tracked := by
  obtain ⟨B, env1, env2, t2, hb, ho, hs⟩ := loadEnvSync_ok_elim parse fs s h
  have h1tr : s1.tracked = t2 := by rw [hs]
  rcases overlayStep_ok_elim parse fs ho with ⟨_, _, ht⟩ | ⟨ne, E, _, _, _, hpair⟩
  · rw [h1tr, ht]
    exact trackKeys_sublist B s.tracked
  · have ht2 : t2 = (overlayMerge E env1 (trackKeys B s.tracked)).2 :=
      congrArg Prod.snd hpair
    rw [h1tr, ht2]
    exact (trackKeys_sublist B s.tracked).trans
      (overlayMerge_tracked_sublist E env1 (trackKeys B s.tracked))

/-! ### The claims -/

/-- C1: during a layered load, every key/value pair of the overlay mapping is
written into the process environment (overwriting any existing value) if and
only if the key is already in the tracking set (after the base keys were
tracked) or the key is currently absent/unset in the environment (the
engine's emptiness test); otherwise the overlay value is discarded and an
externally-set key keeps its original external value; every written key is
added to the tracking set.  The final conjunct records that `mod`, the other
layered entry point, is the same function. -/
theorem c1_overlay_write_iff (parse : Parse) (fs : FS) (s : SysState)
    (ne : String) (B E : Entries) (env1 : Env) (k v : String) (s2 : SysState)
    (hne : s.env "NODE_ENV" = some ne) (hne2 : ne ≠ "")
    (hB : loadSync parse fs { exportEnv := true } s.env = .ok (B, env1))
    (hE : parseFileSync parse fs (".env." ++ ne) = .ok E)
    (hnd : (E.map Prod.fst).Nodup)
    (hkv : (k, v) ∈ E)
    (hrun : loadEnvSync parse fs s = .ok s2) :
    ((k ∈ trackKeys B s.tracked ∨ falsy (env1 k)) →
      s2.env k = some v ∧ k ∈ s2.tracked)
    ∧ (¬(k ∈ trackKeys B s.tracked ∨ falsy (env1 k)) →
      s2.env k = s.env k ∧ k ∉ s2.tracked)
    ∧ mod parse fs s = loadEnvSync parse fs s := by
  have ho2 : overlayStep parse fs (s.env "NODE_ENV") env1 (trackKeys B s.tracked) =
      .ok ((overlayMerge E env1 (trackKeys B s.tracked)).1,
        (overlayMerge E env1 (trackKeys B s.tracked)).2) := by
    rw [hne]
    exact overlayStep_some parse fs env1 (trackKeys B s.tracked) hne2 hE
  have hrun2 := loadEnvSync_ok_intro parse fs s hB ho2
  have hs : s2 = ⟨(overlayMerge E env1 (trackKeys B s.tracked)).1,
      (overlayMerge E env1 (trackKeys B s.tracked)).2,
      s.log ++ [hydratedLine (overlayMerge E env1 (trackKeys B s.tracked)).2]⟩ := by
    have h12 := hrun.symm.trans hrun2
    simp only [Except.ok.injEq] at h12
    exact h12
  have hs2env : s2.env = (overlayMerge E env1 (trackKeys B s.tracked)).1 := by
    rw [hs]
  have hs2tr : s2.tracked = (overlayMerge E env1 (trackKeys B s.tracked)).2 := by
    rw [hs]
  obtain ⟨hpos, hneg⟩ :=
    overlayMerge_key E env1 (trackKeys B s.tracked) k v hkv hnd
  refine ⟨?_, ?_, rfl⟩
  · intro hc
    obtain ⟨h1, h2⟩ := hpos hc
    constructor
    · rw [hs2env]
      exact h1
    · rw [hs2tr]
      exact h2
  · intro hc
    obtain ⟨h1, h2⟩ := hneg hc
    have hkB : k ∉ B.map Prod.fst := fun hq =>
      hc (Or.inl ((mem_trackKeys B s.tracked k).2 (Or.inr hq)))
    obtain ⟨hrB, he⟩ := loadSync_ok_elim parse fs _ s.env hB
    have henv1 : env1 k = s.env k := by
      have he2 : env1 = exportConf B s.env := he
      rw [he2]
      exact exportConf_not_mem B s.env k hkB
    constructor
    · rw [hs2env, h1, henv1]
    · intro hmem
      rw [hs2tr] at hmem
      exact hc (Or.inl (h2.mp hmem))

/-- C1 witness: on the `w` fixture, the tracked overlay key `A` is
overwritten to the overlay value and stays tracked, while the untracked
externally-set key `EXT2` keeps its external value and is not tracked. -/
theorem c1_overlay_write_iff_witness :
    (wStA.env "A" = some "2" ∧ "A" ∈ wStA.tracked)
    ∧ (wStA.env "EXT2" = wSt.env "EXT2" ∧ "EXT2" ∉ wStA.tracked) :=
  ⟨(c1_overlay_write_iff wParse wFs wSt "dev"
      [("A", "1"), ("K", "b"), ("EXT", "clobber")]
      [("A", "2"), ("EXT2", "x"), ("NEW", "n"), ("EMP", "e")]
      (exportConf [("A", "1"), ("K", "b"), ("EXT", "clobber")] wEnv) "A" "2" wStA
      rfl (by decide) rfl rfl (by decide) (by decide) rfl).1 (Or.inl (by decide)),
   ((c1_overlay_write_iff wParse wFs wSt "dev"
      [("A", "1"), ("K", "b"), ("EXT", "clobber")]
      [("A", "2"), ("EXT2", "x"), ("NEW", "n"), ("EMP", "e")]
      (exportConf [("A", "1"), ("K", "b"), ("EXT", "clobber")] wEnv) "EXT2" "x" wStA
      rfl (by decide) rfl rfl (by decide) (by decide) rfl).2).1 (by decide)⟩

/-- C2: a `load`/`loadSync` call with `export` requested sets a key of the
loaded mapping only if the key is not already present in the process
environment; hence a key with an externally-set value `V` keeps value `V`
after a base-only load with export. -/
theorem c2_export_first_writer_wins (parse : Parse) (fs : FS)
    (options : LoadOptions) (env : Env) (k V : String) (conf conf2 : Entries)
    (env2 env3 : Env)
    (hexp : options.exportEnv = true)
    (hk : env k = some V) :
    (loadSync parse fs options env = .ok (conf, env2) → env2 k = some V)
    ∧ (load parse fs options env = .ok (conf2, env3) → env3 k = some V) := by
  have key : ∀ (c : Entries) (e2 : Env),
      loadSync parse fs options env = .ok (c, e2) → e2 k = some V := by
    intro c e2 h
    obtain ⟨_, he⟩ := loadSync_ok_elim parse fs options env h
    rw [he, hexp, if_pos rfl]
    exact exportConf_of_some c env k V hk
  exact ⟨key conf env2, fun h => key conf2 env3 h⟩

/-- C2 witness: the externally-set `EXT=keep` survives a base load with
export although the base file maps `EXT` to `clobber`. -/
theorem c2_export_first_writer_wins_witness :
    exportConf [("A", "1"), ("K", "b"), ("EXT", "clobber")] wEnv "EXT" = some "keep" :=
  (c2_export_first_writer_wins wParse wFs ⟨none, true⟩ wEnv "EXT" "keep"
    [("A", "1"), ("K", "b"), ("EXT", "clobber")]
    [("A", "1"), ("K", "b"), ("EXT", "clobber")]
    (exportConf [("A", "1"), ("K", "b"), ("EXT", "clobber")] wEnv)
    (exportConf [("A", "1"), ("K", "b"), ("EXT", "clobber")] wEnv)
    rfl rfl).1 rfl

/-- C3: a key present in both the base and the overlay mapping and absent
from the environment before a layered load ends up with the overlay's value
(and tracked): the base keys are tracked unconditionally, so the overlay
wins.  The final conjunct records that `mod` is the same function. -/
theorem c3_overlay_overrides_base (parse : Parse) (fs : FS) (s : SysState)
    (ne : String) (B E : Entries) (k vb vo : String) (s2 : SysState)
    (hne : s.env "NODE_ENV" = some ne) (hne2 : ne ≠ "")
    (hB : parseFileSync parse fs ".env" = .ok B)
    (hE : parseFileSync parse fs (".env." ++ ne) = .ok E)
    (hndE : (E.map Prod.fst).Nodup)
    (hkB : (k, vb) ∈ B) (hkE : (k, vo) ∈ E)
    (habs : s.env k = none)
    (hrun : loadEnvSync parse fs s = .ok s2) :
    s2.env k = some vo ∧ k ∈ s2.tracked ∧
      mod parse fs s = loadEnvSync parse fs s := by
  have hrB : resolveConf parse fs ⟨none, true⟩ = .ok B := by
    rw [resolveConf_default parse fs true]
    exact hB
  have hBload : loadSync parse fs { exportEnv := true } s.env =
      .ok (B, exportConf B s.env) :=
    loadSync_ok_intro parse fs _ s.env hrB
  have hkm : k ∈ trackKeys B s.tracked :=
    (mem_trackKeys B s.tracked k).2 (Or.inr (List.mem_map.2 ⟨(k, vb), hkB, rfl⟩))
  have ho2 : overlayStep parse fs (s.env "NODE_ENV") (exportConf B s.env)
      (trackKeys B s.tracked) =
      .ok ((overlayMerge E (exportConf B s.env) (trackKeys B s.tracked)).1,
        (overlayMerge E (exportConf B s.env) (trackKeys B s.tracked)).2) := by
    rw [hne]
    exact overlayStep_some parse fs (exportConf B s.env) (trackKeys B s.tracked) hne2 hE
  have hrun2 := loadEnvSync_ok_intro parse fs s hBload ho2
  have hs : s2 = ⟨(overlayMerge E (exportConf B s.env) (trackKeys B s.tracked)).1,
      (overlayMerge E (exportConf B s.env) (trackKeys B s.tracked)).2,
      s.log ++ [hydratedLine
        (overlayMerge E (exportConf B s.env) (trackKeys B s.tracked)).2]⟩ := by
    have h12 := hrun.symm.trans hrun2
    simp only [Except.ok.injEq] at h12
    exact h12
  obtain ⟨hpos, _⟩ :=
    overlayMerge_key E (exportConf B s.env) (trackKeys B s.tracked) k vo hkE hndE
  obtain ⟨h1, h2⟩ := hpos (Or.inl hkm)
  refine ⟨?_, ?_, rfl⟩
  · rw [show s2.env = (overlayMerge E (exportConf B s.env) (trackKeys B s.tracked)).1
      from by rw [hs]]
    exact h1
  · rw [show s2.tracked = (overlayMerge E (exportConf B s.env) (trackKeys B s.tracked)).2
      from by rw [hs]]
    exact h2

/-- C3 witness: key `A` is in both fixture files, absent from the fixture
environment, and ends with the overlay value `2`, tracked. -/
theorem c3_overlay_overrides_base_witness :
    wStA.env "A" = some "2" ∧ "A" ∈ wStA.tracked :=
  have h := c3_overlay_overrides_base wParse wFs wSt "dev"
    [("A", "1"), ("K", "b"), ("EXT", "clobber")]
    [("A", "2"), ("EXT2", "x"), ("NEW", "n"), ("EMP", "e")] "A" "1" "2" wStA
    rfl (by decide) rfl rfl (by decide) (by decide) (by decide) rfl rfl
  ⟨h.1, h.2.1⟩

/-- C4 counterexample: the claim says `NODE_ENV` is read after the base load,
so a base-provided `NODE_ENV=dev` would trigger loading `.env.dev` (which
exists and defines `FOO=1`, absent from the environment, so `FOO` would be
written and tracked) in the same call.  On the code, with `NODE_ENV` unset
externally, the call exports `NODE_ENV` from the base file yet loads no
overlay: `FOO` stays unset and untracked. -/
theorem c4_counterexample :
    (loadEnvSync xParse xFs xSt).map SysState.tracked = .ok ["NODE_ENV"]
    ∧ (loadEnvSync xParse xFs xSt).map (fun s => s.env "FOO") = .ok none
    ∧ (loadEnvSync xParse xFs xSt).map (fun s => s.env "NODE_ENV") = .ok (some "dev")
    ∧ parseFileSync xParse xFs (".env." ++ "dev") = .ok [("FOO", "1")] :=
  ⟨rfl, rfl, rfl, rfl⟩

/-- C4 (amended): the current-environment indicator is read from the process
environment at the start of the layered call, before the base load; the
call's behaviour depends on the file system only at `.env` when that initial
read is absent/empty (no overlay is loaded, even if the base file defines the
indicator and the base export writes it), and only at `.env` and the overlay
path named after that initially-read value when it is set. -/
theorem c4_indicator_read_before_base (parse : Parse) (fs fs2 : FS)
    (s : SysState) :
    (falsy (s.env "NODE_ENV") → fs2 ".env" = fs ".env" →
      loadEnvSync parse fs2 s = loadEnvSync parse fs s)
    ∧ (∀ ne, s.env "NODE_ENV" = some ne → ne ≠ "" →
      fs2 ".env" = fs ".env" → fs2 (".env." ++ ne) = fs (".env." ++ ne) →
      loadEnvSync parse fs2 s = loadEnvSync parse fs s) := by
  constructor
  · intro hf hbase
    have hb : loadSync parse fs2 { exportEnv := true } s.env =
        loadSync parse fs { exportEnv := true } s.env := by
      unfold loadSync
      rw [resolveConf_default parse fs2 true, resolveConf_default parse fs true,
        parseFileSync_congr parse ".env" hbase]
    cases hres : loadSync parse fs { exportEnv := true } s.env with
    | error e =>
      have hres2 : loadSync parse fs2 { exportEnv := true } s.env = .error e :=
        hb.trans hres
      rw [loadEnvSync_base_err parse fs2 s hres2, loadEnvSync_base_err parse fs s hres]
    | ok be =>
      obtain ⟨B, env1⟩ := be
      have hres2 : loadSync parse fs2 { exportEnv := true } s.env = .ok (B, env1) :=
        hb.trans hres
      rw [loadEnvSync_ok_intro parse fs2 s hres2
          (overlayStep_falsy parse fs2 env1 (trackKeys B s.tracked) hf),
        loadEnvSync_ok_intro parse fs s hres
          (overlayStep_falsy parse fs env1 (trackKeys B s.tracked) hf)]
  · intro ne hne hne2 hbase hovl
    have hb : loadSync parse fs2 { exportEnv := true } s.env =
        loadSync parse fs { exportEnv := true } s.env := by
      unfold loadSync
      rw [resolveConf_default parse fs2 true, resolveConf_default parse fs true,
        parseFileSync_congr parse ".env" hbase]
    have hovp : parseFileSync parse fs2 (".env." ++ ne) =
        parseFileSync parse fs (".env." ++ ne) :=
      parseFileSync_congr parse (".env." ++ ne) hovl
    cases hres : loadSync parse fs { exportEnv := true } s.env with
    | error e =>
      have hres2 : loadSync parse fs2 { exportEnv := true } s.env = .error e :=
        hb.trans hres
      rw [loadEnvSync_base_err parse fs2 s hres2, loadEnvSync_base_err parse fs s hres]
    | ok be =>
      obtain ⟨B, env1⟩ := be
      have hres2 : loadSync parse fs2 { exportEnv := true } s.env = .ok (B, env1) :=
        hb.trans hres
      cases hp : parseFileSync parse fs (".env." ++ ne) with
      | error e =>
        have hp2 : parseFileSync parse fs2 (".env." ++ ne) = .error e :=
          hovp.trans hp
        rw [loadEnvSync_overlay_err parse fs2 s hres2
            (by rw [hne]
                exact overlayStep_some_err parse fs2 env1 (trackKeys B s.tracked) hne2 hp2),
          loadEnvSync_overlay_err parse fs s hres
            (by rw [hne]
                exact overlayStep_some_err parse fs env1 (trackKeys B s.tracked) hne2 hp)]
      | ok E =>
        have hp2 : parseFileSync parse fs2 (".env." ++ ne) = .ok E :=
          hovp.trans hp
        rw [loadEnvSync_ok_intro parse fs2 s hres2
            (by rw [hne]
                exact overlayStep_some parse fs2 env1 (trackKeys B s.tracked) hne2 hp2),
          loadEnvSync_ok_intro parse fs s hres
            (by rw [hne]
                exact overlayStep_some parse fs env1 (trackKeys B s.tracked) hne2 hp)]

/-- C4 (amended) witness: with the indicator unset the layered load ignores
the presence of any overlay file, and with the indicator preset only `.env`
and `.env.dev` matter. -/
theorem c4_indicator_read_before_base_witness :
    loadEnvSync xParse xFs2 xSt = loadEnvSync xParse xFs xSt
    ∧ loadEnvSync wParse wFs2 wSt = loadEnvSync wParse wFs wSt :=
  ⟨(c4_indicator_read_before_base xParse xFs xFs2 xSt).1 (Or.inl rfl) rfl,
   (c4_indicator_read_before_base wParse wFs wFs2 wSt).2 "dev" rfl (by decide) rfl rfl⟩

/-- C5: a missing file is not an error — the File Loader, `loadSync` and
`load` (with or without export) produce an empty mapping; any other I/O or
parse failure propagates unmodified, and the layered loader catches nothing:
a failing base or overlay load surfaces as the same error. -/
theorem c5_missing_file_not_error (parse : Parse) (fs : FS) (s : SysState)
    (env : Env) (b : Bool) :
    (∀ p, fs p = .notFound → parseFileSync parse fs p = .ok [])
    ∧ (∀ p, fs p = .notFound →
        loadSync parse fs ⟨some (some p), b⟩ env = .ok ([], env))
    ∧ (∀ p, fs p = .notFound →
        load parse fs ⟨some (some p), b⟩ env = .ok ([], env))
    ∧ (∀ p e, fs p = .readErr e → parseFileSync parse fs p = .error (.ioErr e))
    ∧ (∀ p text pe, fs p = .content text → parse text = .error pe →
        parseFileSync parse fs p = .error (.parseErr pe))
    ∧ (∀ er, parseFileSync parse fs ".env" = .error er →
        loadEnvSync parse fs s = .error er)
    ∧ (∀ ne er B env1, s.env "NODE_ENV" = some ne → ne ≠ "" →
        loadSync parse fs { exportEnv := true } s.env = .ok (B, env1) →
        parseFileSync parse fs (".env." ++ ne) = .error er →
        loadEnvSync parse fs s = .error er) := by
  have hmiss : ∀ p, fs p = .notFound → parseFileSync parse fs p = .ok [] := by
    intro p h
    unfold parseFileSync
    rw [h]
  have hload : ∀ p, fs p = .notFound →
      loadSync parse fs ⟨some (some p), b⟩ env = .ok ([], env) := by
    intro p h
    have hr : resolveConf parse fs ⟨some (some p), b⟩ = .ok [] := by
      by_cases hp : p = ""
      · subst hp
        exact resolveConf_emptyPath parse fs b
      · rw [resolveConf_somePath parse fs b hp]
        exact hmiss p h
    rw [loadSync_ok_intro parse fs _ env hr]
    cases b
    · rfl
    · rfl
  refine ⟨hmiss, hload, fun p h => hload p h, ?_, ?_, ?_, ?_⟩
  · intro p e h
    unfold parseFileSync
    rw [h]
  · intro p text pe h hp
    simp only [parseFileSync, h, hp]
  · intro er h
    apply loadEnvSync_base_err parse fs s
    apply loadSync_err_intro
    rw [resolveConf_default parse fs true]
    exact h
  · intro ne er B env1 hne hne2 hB hp
    apply loadEnvSync_overlay_err parse fs s hB
    rw [hne]
    exact overlayStep_some_err parse fs env1 (trackKeys B s.tracked) hne2 hp

/-- C5 witness: on the error fixtures — a missing path yields the empty
mapping (also through `loadSync`), a read failure and a parse failure
propagate from the File Loader, and a malformed base file or an unreadable
overlay file aborts the layered load with that very error. -/
theorem c5_missing_file_not_error_witness :
    parseFileSync eParse eFs "missing" = .ok []
    ∧ loadSync eParse eFs ⟨some (some "missing"), true⟩ env0 = .ok ([], env0)
    ∧ parseFileSync eParse eFs "locked" = .error (.ioErr "EACCES")
    ∧ parseFileSync eParse eFs ".env" = .error (.parseErr "badline")
    ∧ loadEnvSync eParse eFs eSt = .error (.parseErr "badline")
    ∧ loadEnvSync eParse e2Fs eSt = .error (.ioErr "EACCES") :=
  have h := c5_missing_file_not_error eParse eFs eSt env0 true
  have h2 := c5_missing_file_not_error eParse e2Fs eSt env0 true
  ⟨h.1 "missing" rfl,
   h.2.1 "missing" rfl,
   h.2.2.2.1 "locked" "EACCES" rfl,
   h.2.2.2.2.1 ".env" "malTxt" "badline" rfl rfl,
   h.2.2.2.2.2.1 (.parseErr "badline") rfl,
   h2.2.2.2.2.2.2 "dev" (.ioErr "EACCES") [("A", "1")]
     (exportConf [("A", "1")] eEnv) rfl (by decide) rfl rfl⟩

/-- C6 counterexample: re-invoking the layered load with unchanged files does
not always leave the tracking set equal.  With `NODE_ENV` unset externally
and a base file defining `NODE_ENV=dev`, the first call reads the indicator
before the base export and tracks only `NODE_ENV`; the second call sees the
now-exported indicator, loads `.env.dev`, and the tracking set grows to
`[NODE_ENV, FOO]`. -/
theorem c6_counterexample :
    (loadEnvSync xParse xFs xSt).map SysState.tracked = .ok ["NODE_ENV"]
    ∧ ((loadEnvSync xParse xFs xSt).bind
        (loadEnvSync xParse xFs)).map SysState.tracked = .ok ["NODE_ENV", "FOO"] :=
  ⟨rfl, rfl⟩

/-- C6 (amended): the tracking set grows monotonically — each layered load
(`loadEnvSync`, and `mod`, the same function) only appends, so the old set is
a sublist of the new; and re-invoking the layered load with unchanged files
leaves the set equal, provided the environment indicator has the same value
at the start of both calls (as is the case whenever the loaded files do not
themselves introduce the indicator). -/
theorem c6_tracking_monotone (parse : Parse) (fs : FS) (s s1 s2 : SysState)
    (h1 : loadEnvSync parse fs s = .ok s1) :
    List.Sublist s.tracked s1.tracked
    ∧ (∀ sm, mod parse fs s = .ok sm → List.Sublist s.tracked sm.tracked)
    ∧ (RecordParse parse → s1.env "NODE_ENV" = s.env "NODE_ENV" →
        loadEnvSync parse fs s1 = .ok s2 → s2.tracked = s1.tracked) := by
  refine ⟨tracked_monotone parse fs s h1,
    fun sm hm => tracked_monotone parse fs s hm, ?_⟩
  intro hrec hind h2
  obtain ⟨B, env1, env2, t2, hb, ho, hs1⟩ := loadEnvSync_ok_elim parse fs s h1
  obtain ⟨B2, env1b, env2b, t2b, hb2, ho2, hs2⟩ := loadEnvSync_ok_elim parse fs s1 h2
  obtain ⟨hrB, he1⟩ := loadSync_ok_elim parse fs _ s.env hb
  obtain ⟨hrB2, he1b⟩ := loadSync_ok_elim parse fs _ s1.env hb2
  have hBeq : B2 = B := by
    have h12 := hrB.symm.trans hrB2
    simp only [Except.ok.injEq] at h12
    exact h12.symm
  rw [hBeq] at hb2 he1b ho2
  have hs1tr : s1.tracked = t2 := by rw [hs1]
  have hs1env : s1.env = env2 := by rw [hs1]
  have hs2tr : s2.tracked = t2b := by rw [hs2]
  rw [hs2tr, hs1tr]
  rw [hind] at ho2
  have hBsub : ∀ a ∈ B.map Prod.fst, a ∈ trackKeys B s.tracked :=
    fun a ha => (mem_trackKeys B s.tracked a).2 (Or.inr ha)
  cases hnv : s.env "NODE_ENV" with
  | none =>
    rw [hnv, overlayStep_none] at ho ho2
    simp only [Except.ok.injEq, Prod.mk.injEq] at ho ho2
    obtain ⟨_, ht2⟩ := ho
    obtain ⟨_, ht2b⟩ := ho2
    rw [← ht2b, hs1tr, ← ht2]
    exact trackKeys_of_subset B (trackKeys B s.tracked) hBsub
  | some ne =>
    by_cases hne : ne = ""
    · subst hne
      rw [hnv, overlayStep_emptyInd] at ho ho2
      simp only [Except.ok.injEq, Prod.mk.injEq] at ho ho2
      obtain ⟨_, ht2⟩ := ho
      obtain ⟨_, ht2b⟩ := ho2
      rw [← ht2b, hs1tr, ← ht2]
      exact trackKeys_of_subset B (trackKeys B s.tracked) hBsub
    · rw [hnv] at ho ho2
      rcases overlayStep_ok_elim parse fs ho with ⟨hf, _, _⟩ | hrest
      · rcases hf with hf | hf
        · exact absurd hf (by simp)
        · simp only [Option.some.injEq] at hf
          exact absurd hf hne
      obtain ⟨ne1, E, hsome, _, hpE, hpair⟩ := hrest
      have hne1 : ne1 = ne := (Option.some.inj hsome).symm
      rw [hne1] at hpE
      rcases overlayStep_ok_elim parse fs ho2 with ⟨hf, _, _⟩ | hrest2
      · rcases hf with hf | hf
        · exact absurd hf (by simp)
        · simp only [Option.some.injEq] at hf
          exact absurd hf hne
      obtain ⟨ne2, E2, hsome2, _, hpE2, hpair2⟩ := hrest2
      have hne2' : ne2 = ne := (Option.some.inj hsome2).symm
      rw [hne2'] at hpE2
      have hEeq : E2 = E := by
        have h12 := hpE.symm.trans hpE2
        simp only [Except.ok.injEq] at h12
        exact h12.symm
      rw [hEeq] at hpair2
      have ht2 : t2 = (overlayMerge E env1 (trackKeys B s.tracked)).2 :=
        congrArg Prod.snd hpair
      have henv2 : env2 = (overlayMerge E env1 (trackKeys B s.tracked)).1 :=
        congrArg Prod.fst hpair
      have ht2b : t2b = (overlayMerge E env1b (trackKeys B s1.tracked)).2 :=
        congrArg Prod.snd hpair2
      have hndE : (E.map Prod.fst).Nodup := parseFileSync_nodup fs _ hrec hpE
      have hsubB : ∀ a ∈ B.map Prod.fst, a ∈ t2 := by
        intro a ha
        rw [ht2]
        exact (overlayMerge_tracked_sublist E env1 (trackKeys B s.tracked)).subset
          (hBsub a ha)
      have ht1b : trackKeys B s1.tracked = s1.tracked := by
        apply trackKeys_of_subset
        intro a ha
        rw [hs1tr]
        exact hsubB a ha
      rw [ht1b] at ht2b
      have hstable : ∀ kv ∈ E, kv.1 ∈ s1.tracked ∨ ¬ falsy (env1b kv.1) := by
        intro kv hkv
        by_cases hm : kv.1 ∈ s1.tracked
        · exact Or.inl hm
        · right
          have hkv2 : (kv.1, kv.2) ∈ E := by
            rw [Prod.mk.eta]
            exact hkv
          obtain ⟨hpos, hneg⟩ :=
            overlayMerge_key E env1 (trackKeys B s.tracked) kv.1 kv.2 hkv2 hndE
          have hnot2 : kv.1 ∉ (overlayMerge E env1 (trackKeys B s.tracked)).2 := by
            rw [← ht2, ← hs1tr]
            exact hm
          have hcond : ¬(kv.1 ∈ trackKeys B s.tracked ∨ falsy (env1 kv.1)) :=
            fun hcc => hnot2 (hpos hcc).2
          obtain ⟨henvk, _⟩ := hneg hcond
          have hnf1 : ¬ falsy (env1 kv.1) := fun hx => hcond (Or.inr hx)
          obtain ⟨w, hw⟩ : ∃ w, env1 kv.1 = some w := by
            cases hv : env1 kv.1 with
            | none => exact absurd (Or.inl hv) hnf1
            | some w => exact ⟨w, rfl⟩
          have hwne : w ≠ "" := fun h0 => hnf1 (Or.inr (by rw [hw, h0]))
          have hs1k : s1.env kv.1 = some w := by
            rw [hs1env, henv2, henvk, hw]
          have he1b2 : env1b = exportConf B s1.env := he1b
          have henv1bk : env1b kv.1 = some w := by
            rw [he1b2]
            exact exportConf_of_some B s1.env kv.1 w hs1k
          rw [henv1bk]
          exact not_falsy_some hwne
      rw [ht2b, overlayMerge_tracked_stable E env1b s1.tracked hstable, hs1tr]

/-- C6 (amended) witness: on the `w` fixture (indicator preset externally,
files do not mention it) the first call only appends to the empty tracking
set, `mod` behaves identically, and a second call leaves the set equal. -/
theorem c6_tracking_monotone_witness :
    List.Sublist wSt.tracked wStA.tracked ∧ wStB.tracked = wStA.tracked :=
  have h := c6_tracking_monotone wParse wFs wSt wStA wStB rfl
  ⟨h.1, h.2.2 (by
      intro t c hc
      unfold wParse at hc
      split_ifs at hc <;> (injection hc with hc; rw [← hc]; decide))
    rfl rfl⟩

/-- C7: each synchronous operation is the same function as its asynchronous
counterpart over the embedded semantics: `parseFile` equals `parseFileSync`,
`load` equals `loadSync` (same mapping, same errors, same resulting
environment), and `mod` equals `loadEnvSync` (same precedence rules, same
environment, tracking-set and output mutations).  Only scheduling — outside
this embedding — distinguishes them in the source. -/
theorem c7_sync_async_equal :
    (∀ (parse : Parse) (fs : FS) (p : String),
      parseFile parse fs p = parseFileSync parse fs p)
    ∧ (∀ (parse : Parse) (fs : FS) (options : LoadOptions) (env : Env),
      load parse fs options env = loadSync parse fs options env)
    ∧ (∀ (parse : Parse) (fs : FS) (s : SysState),
      mod parse fs s = loadEnvSync parse fs s) :=
  ⟨fun _ _ _ => rfl, fun _ _ _ _ => rfl, fun _ _ _ => rfl⟩

/-- C8: the effective path of `load`/`loadSync` is `options.envPath`,
defaulting to `.env` when never supplied; an explicit `null` or empty path
reads nothing and produces the empty mapping (environment untouched); the
returned mapping is independent of `export` and equals the File Loader's
result for the resolved path; `load` is the same function. -/
theorem c8_path_resolution (parse : Parse) (fs : FS) (env : Env) (b : Bool) :
    (loadSync parse fs ⟨none, b⟩ env = loadSync parse fs ⟨some (some ".env"), b⟩ env)
    ∧ (loadSync parse fs ⟨some none, b⟩ env = .ok ([], env))
    ∧ (loadSync parse fs ⟨some (some ""), b⟩ env = .ok ([], env))
    ∧ (∀ p b2, (loadSync parse fs ⟨p, b⟩ env).map Prod.fst
        = (loadSync parse fs ⟨p, b2⟩ env).map Prod.fst)
    ∧ (∀ p, p ≠ "" → (loadSync parse fs ⟨some (some p), b⟩ env).map Prod.fst
        = parseFileSync parse fs p)
    ∧ (∀ options, load parse fs options env = loadSync parse fs options env) := by
  refine ⟨?_, ?_, ?_, ?_, ?_, fun _ => rfl⟩
  · unfold loadSync
    rw [resolveConf_default parse fs b,
      resolveConf_somePath parse fs b (show (".env" : String) ≠ "" by decide)]
  · rw [loadSync_ok_intro parse fs _ env (resolveConf_null parse fs b)]
    cases b
    · rfl
    · rfl
  · rw [loadSync_ok_intro parse fs _ env (resolveConf_emptyPath parse fs b)]
    cases b
    · rfl
    · rfl
  · intro p b2
    cases hr : resolveConf parse fs ⟨p, b⟩ with
    | error e =>
      have hr2 : resolveConf parse fs ⟨p, b2⟩ = .error e := hr
      rw [loadSync_err_intro parse fs _ env hr, loadSync_err_intro parse fs _ env hr2]
    | ok c =>
      have hr2 : resolveConf parse fs ⟨p, b2⟩ = .ok c := hr
      rw [loadSync_ok_intro parse fs _ env hr, loadSync_ok_intro parse fs _ env hr2]
      rfl
  · intro p hp0
    cases hp : parseFileSync parse fs p with
    | error e =>
      have hr : resolveConf parse fs ⟨some (some p), b⟩ = .error e := by
        rw [resolveConf_somePath parse fs b hp0]
        exact hp
      rw [loadSync_err_intro parse fs _ env hr]
      rfl
    | ok c =>
      have hr : resolveConf parse fs ⟨some (some p), b⟩ = .ok c := by
        rw [resolveConf_somePath parse fs b hp0]
        exact hp
      rw [loadSync_ok_intro parse fs _ env hr]
      rfl

/-- C8 witness: on the `w` fixture, the mapping returned for the explicit
path `alt.env` is exactly the File Loader's result for that path. -/
theorem c8_path_resolution_witness :
    (loadSync wParse wFs ⟨some (some "alt.env"), true⟩ wEnv).map Prod.fst
      = parseFileSync wParse wFs "alt.env" :=
  (c8_path_resolution wParse wFs wEnv true).2.2.2.2.1 "alt.env" (by decide)

/-- C9: every successful layered-load call (`loadEnvSync` or `mod`) emits
exactly one line, `Hydrated environment variables: ` followed by the
comma-and-space-joined full accumulated tracking set — which the model keeps
in insertion order, as a JavaScript `Set` iterates — not just the keys
touched in this call. -/
theorem c9_hydrated_output (parse : Parse) (fs : FS) (s s1 s2 : SysState) :
    (loadEnvSync parse fs s = .ok s1 →
      s1.log = s.log ++ [hydratedLine s1.tracked])
    ∧ (mod parse fs s = .ok s2 →
      s2.log = s.log ++ [hydratedLine s2.tracked]) := by
  have key : ∀ sr : SysState, loadEnvSync parse fs s = .ok sr →
      sr.log = s.log ++ [hydratedLine sr.tracked] := by
    intro sr h
    obtain ⟨B, env1, env2, t2, _, _, hs⟩ := loadEnvSync_ok_elim parse fs s h
    rw [hs]
  exact ⟨key s1, fun h => key s2 h⟩

/-- C9 witness: on the `w` fixture, both entry points emit exactly the single
hydrate line listing the final tracking set. -/
theorem c9_hydrated_output_witness :
    wStA.log = wSt.log ++ [hydratedLine wStA.tracked]
    ∧ wStM.log = wSt.log ++ [hydratedLine wStM.tracked] :=
  have h := c9_hydrated_output wParse wFs wSt wStA wStM
  ⟨h.1 rfl, h.2 rfl⟩

/-- C10: a key whose current environment value is the empty string is treated
asymmetrically: the base export of `load`/`loadSync` with `export` counts it
as present and leaves it unchanged, while the overlay step of a layered load
counts it as unset — the overlay value overwrites it and the key is tracked
even when it was never tracked before. -/
theorem c10_empty_string_asymmetry (parse : Parse) (fs : FS) :
    (∀ (options : LoadOptions) (env : Env) (conf : Entries) (env2 : Env)
        (k : String),
      options.exportEnv = true → env k = some "" →
      loadSync parse fs options env = .ok (conf, env2) → env2 k = some "")
    ∧ (∀ (s : SysState) (ne : String) (B E : Entries) (env1 : Env)
        (k v : String) (s2 : SysState),
      s.env "NODE_ENV" = some ne → ne ≠ "" →
      loadSync parse fs { exportEnv := true } s.env = .ok (B, env1) →
      parseFileSync parse fs (".env." ++ ne) = .ok E →
      (E.map Prod.fst).Nodup → (k, v) ∈ E →
      k ∉ trackKeys B s.tracked → env1 k = some "" →
      loadEnvSync parse fs s = .ok s2 →
      s2.env k = some v ∧ k ∈ s2.tracked) := by
  constructor
  · intro options env conf env2 k hexp hemp h
    obtain ⟨_, he⟩ := loadSync_ok_elim parse fs options env h
    rw [he, hexp, if_pos rfl]
    exact exportConf_of_some conf env k "" hemp
  · intro s ne B E env1 k v s2 hne hne2 hB hE hnd hkv hnt hemp hrun
    have ho2 : overlayStep parse fs (s.env "NODE_ENV") env1 (trackKeys B s.tracked) =
        .ok ((overlayMerge E env1 (trackKeys B s.tracked)).1,
          (overlayMerge E env1 (trackKeys B s.tracked)).2) := by
      rw [hne]
      exact overlayStep_some parse fs env1 (trackKeys B s.tracked) hne2 hE
    have hrun2 := loadEnvSync_ok_intro parse fs s hB ho2
    have hs : s2 = ⟨(overlayMerge E env1 (trackKeys B s.tracked)).1,
        (overlayMerge E env1 (trackKeys B s.tracked)).2,
        s.log ++ [hydratedLine (overlayMerge E env1 (trackKeys B s.tracked)).2]⟩ := by
      have h12 := hrun.symm.trans hrun2
      simp only [Except.ok.injEq] at h12
      exact h12
    obtain ⟨hpos, _⟩ :=
      overlayMerge_key E env1 (trackKeys B s.tracked) k v hkv hnd
    obtain ⟨h1, h2⟩ := hpos (Or.inr (Or.inr hemp))
    constructor
    · rw [show s2.env = (overlayMerge E env1 (trackKeys B s.tracked)).1
        from by rw [hs]]
      exact h1
    · rw [show s2.tracked = (overlayMerge E env1 (trackKeys B s.tracked)).2
        from by rw [hs]]
      exact h2

/-- C10 witness: `EMP` is externally set to the empty string; the base export
for a file mapping `EMP` to `zzz` leaves it empty, while the overlay of the
`w` fixture overwrites it with `e` and tracks it although it was untracked. -/
theorem c10_empty_string_asymmetry_witness :
    exportConf [("EMP", "zzz")] wEnv "EMP" = some ""
    ∧ (wStA.env "EMP" = some "e" ∧ "EMP" ∈ wStA.tracked) :=
  have h := c10_empty_string_asymmetry wParse wFs
  ⟨h.1 ⟨some (some "alt.env"), true⟩ wEnv [("EMP", "zzz")]
      (exportConf [("EMP", "zzz")] wEnv) "EMP" rfl rfl rfl,
   h.2 wSt "dev" [("A", "1"), ("K", "b"), ("EXT", "clobber")]
      [("A", "2"), ("EXT2", "x"), ("NEW", "n"), ("EMP", "e")]
      (exportConf [("A", "1"), ("K", "b"), ("EXT", "clobber")] wEnv) "EMP" "e" wStA
      rfl (by decide) rfl rfl (by decide) (by decide) (by decide) rfl rfl⟩

end DotenvEnhanced
